import Mathlib

set_option maxHeartbeats 1000000
set_option maxRecDepth 2000

namespace Kiwi

/-!
Shallow embedding of the kiwi-store log-structured key-value engine
(src/store/kiwi_store.rs, src/store/mod.rs, src/store/sled_store.rs,
src/error.rs).  The content of the canonical log file kvs.db is modelled
as a `List Char` (one char per byte; all record framing bytes are ASCII,
so char offsets coincide with the byte offsets the code stores).  The
in-memory keydir (a HashMap from key to u64 offset) is modelled as an
association list with distinct keys; iteration order of the HashMap is
unspecified in Rust, the model iterates in list order.  Fallible I/O is
made explicit: operations take booleans saying whether the underlying
append (write_all) and the fs::rename inside compaction succeed, and
return the resulting state next to the Rust Result.  A Rust panic is a
third, distinguished outcome.
-/

/-- Error taxonomy of the crate (src/error.rs). Payload values the model
never inspects (io::Error, serde_json::Error, ...) are dropped. -/
inductive Error where
  | noKey (msg : String)
  | offsetErr (msg : String)
  | ioErr
  | invalidData
  | utf8Err
  | sledErr
  | other (msg : String)
deriving DecidableEq

/-- Outcome of one Rust call: Ok, Err, or a panic (value_from_file panics
on a corrupt offset). -/
inductive Res (α : Type) where
  | ok (val : α)
  | err (e : Error)
  | panicked (msg : String)
deriving DecidableEq

/-- The Command enum of src/store/mod.rs: Set((String, String)) and
Remove(String). -/
inductive Command where
  | set (key value : String)
  | remove (key : String)
deriving DecidableEq

/-- Lower-case hex digit, as serde_json emits in \u00XX escapes. -/
def hexDigit (n : Nat) : Char :=
  if n < 10 then Char.ofNat (48 + n) else Char.ofNat (87 + n)

/-- JSON string escaping of one character exactly as serde_json's
serializer performs it: quote, backslash and the named control escapes
get two-character escapes, the remaining control characters (code below
0x20) get \u00XX, and every other character is emitted verbatim. -/
def escapeChar (c : Char) : List Char :=
  if c = '\"' then ['\\', '\"']
  else if c = '\\' then ['\\', '\\']
  else if c = '\x08' then ['\\', 'b']
  else if c = '\t' then ['\\', 't']
  else if c = '\n' then ['\\', 'n']
  else if c = '\x0c' then ['\\', 'f']
  else if c = '\r' then ['\\', 'r']
  else if c.toNat < 32 then
    ['\\', 'u', '0', '0', hexDigit (c.toNat / 16), hexDigit (c.toNat % 16)]
  else [c]

/-- JSON string escaping of a whole string body. -/
def escapeList (l : List Char) : List Char := (l.map escapeChar).flatten

def setPre : List Char := ['\x7b', '\"', 'S', 'e', 't', '\"', ':', '[', '\"']

def pairMid : List Char := ['\"', ',', '\"']

def setSuf : List Char := ['\"', ']', '\x7d']

def removePre : List Char :=
  ['\x7b', '\"', 'R', 'e', 'm', 'o', 'v', 'e', '\"', ':', '\"']

def removeSuf : List Char := ['\"', '\x7d']

/-- serde_json::to_string of a Command: \x7b"Set":["k","v"]\x7d or
\x7b"Remove":"k"\x7d (no newline; the callers append one). -/
def encodeCommand : Command → List Char
  | .set k v => setPre ++ escapeList k.data ++ pairMid ++ escapeList v.data ++ setSuf
  | .remove k => removePre ++ escapeList k.data ++ removeSuf

/-- The four JSON whitespace characters serde_json skips around a value. -/
def isJsonWs (c : Char) : Bool := c = ' ' || c = '\t' || c = '\n' || c = '\r'

def skipWs : List Char → List Char
  | [] => []
  | c :: rest => if isJsonWs c then skipWs rest else c :: rest

def hexVal (c : Char) : Option Nat :=
  if 48 ≤ c.toNat ∧ c.toNat ≤ 57 then some (c.toNat - 48)
  else if 97 ≤ c.toNat ∧ c.toNat ≤ 102 then some (c.toNat - 87)
  else if 65 ≤ c.toNat ∧ c.toNat ≤ 70 then some (c.toNat - 55)
  else none

def unescapeChar (e : Char) : Option Char :=
  if e = '\"' then some '\"'
  else if e = '\\' then some '\\'
  else if e = '/' then some '/'
  else if e = 'b' then some '\x08'
  else if e = 'f' then some '\x0c'
  else if e = 'n' then some '\n'
  else if e = 'r' then some '\r'
  else if e = 't' then some '\t'
  else none

/-- JSON string-literal body parser (the part after the opening quote):
returns the decoded characters and the input after the closing quote.
Mirrors serde_json's string parsing on the escapes its own serializer
emits; lone surrogate escapes and unescaped control characters are
rejected as serde does. -/
def parseStringBody : List Char → Option (List Char × List Char)
  | [] => none
  | c :: rest =>
    if c = '\"' then some ([], rest)
    else if c = '\\' then
      match rest with
      | [] => none
      | e :: rest2 =>
        if e = 'u' then
          match rest2 with
          | h1 :: h2 :: h3 :: h4 :: rest3 =>
            match hexVal h1, hexVal h2, hexVal h3, hexVal h4 with
            | some a, some b, some c2, some d =>
              if 55296 ≤ ((a * 16 + b) * 16 + c2) * 16 + d ∧
                  ((a * 16 + b) * 16 + c2) * 16 + d < 57344 then none
              else
                match parseStringBody rest3 with
                | some (s, r) => some (Char.ofNat (((a * 16 + b) * 16 + c2) * 16 + d) :: s, r)
                | none => none
            | _, _, _, _ => none
          | _ => none
        else
          match unescapeChar e with
          | some d =>
            match parseStringBody rest2 with
            | some (s, r) => some (d :: s, r)
            | none => none
          | none => none
    else if c.toNat < 32 then none
    else
      match parseStringBody rest with
      | some (s, r) => some (c :: s, r)
      | none => none

def dropPrefix : List Char → List Char → Option (List Char)
  | [], l => some l
  | _ :: _, [] => none
  | p :: ps, c :: cs => if c = p then dropPrefix ps cs else none

/-- serde_json::from_str::<Command> applied to one log line: leading and
trailing JSON whitespace is tolerated, anything else after the value is
an error, and the two variant shapes of `encodeCommand` are recognised. -/
def decodeCommand (l : List Char) : Option Command :=
  match dropPrefix setPre (skipWs l) with
  | some r1 =>
    match parseStringBody r1 with
    | some (k, r2) =>
      match dropPrefix [',', '\"'] r2 with
      | some r3 =>
        match parseStringBody r3 with
        | some (v, r4) =>
          match dropPrefix [']', '\x7d'] r4 with
          | some r5 => if skipWs r5 = [] then some (.set (String.mk k) (String.mk v)) else none
          | none => none
        | none => none
      | none => none
    | none => none
  | none =>
    match dropPrefix removePre (skipWs l) with
    | some r1 =>
      match parseStringBody r1 with
      | some (k, r2) =>
        match dropPrefix ['\x7d'] r2 with
        | some r3 => if skipWs r3 = [] then some (.remove (String.mk k)) else none
        | none => none
      | none => none
    | none => none

/-- BufRead::read_line into an empty buffer: everything up to and
including the first newline, or up to end of input if none remains. -/
def takeLine : List Char → List Char
  | [] => []
  | c :: rest => if c = '\n' then ['\n'] else c :: takeLine rest

/-- HashMap::insert on the keydir: replace the binding if the key is
present, extend otherwise. -/
def mapInsert {β : Type} : List (String × β) → String → β → List (String × β)
  | [], k, v => [(k, v)]
  | (k', v') :: rest, k, v =>
    if k' = k then (k, v) :: rest else (k', v') :: mapInsert rest k v

/-- HashMap::remove on the keydir. -/
def mapErase {β : Type} : List (String × β) → String → List (String × β)
  | [], _ => []
  | (k', v') :: rest, k => if k' = k then rest else (k', v') :: mapErase rest k

/-- HashMap::get on the keydir. -/
def mapLookup {β : Type} : List (String × β) → String → Option β
  | [], _ => none
  | (k', v') :: rest, k => if k' = k then some v' else mapLookup rest k

/-- KiwiStoreInner (src/store/kiwi_store.rs): `file` is the content of
the canonical log `<dir>/kvs.db` that both the append handle write_log
and the per-read handles observe, `store` is the keydir, and `tmp` is
the content of the compaction scratch file `<dir>/kvs.db..tmp` when that
file exists on disk. -/
structure KiwiStoreInner where
  file : List Char
  store : List (String × Nat)
  tmp : Option (List Char)
deriving DecidableEq

/-- value_from_file (src/store/kiwi_store.rs lines 186-197): open the
log, seek to the offset, read one line, decode it.  A decode failure is
Err(InvalidData); a Remove record is `panic!("wrong offset")`; a Set
record yields its value WITHOUT comparing the record's key to anything.
Reading at or past end of file yields an empty line, which fails to
decode. -/
def valueFromFile (file : List Char) (offset : Nat) : Res String :=
  match decodeCommand (takeLine (file.drop offset)) with
  | some (.remove _) => .panicked "wrong offset"
  | some (.set _ v) => .ok v
  | none => .err .invalidData

/-- KiwiStoreInner::get (lines 80-85). -/
def getOp (s : KiwiStoreInner) (key : String) : Res (Option String) :=
  match mapLookup s.store key with
  | some off =>
    match valueFromFile s.file off with
    | .ok v => .ok (some v)
    | .err e => .err e
    | .panicked m => .panicked m
  | none => .ok none

/-- The loop body of KiwiStoreInner::compact (lines 112-120): iterate
the keydir with iter_mut, read each entry's current value from the OLD
canonical file, append a fresh Set record to the scratch file, and
overwrite the entry's offset IN PLACE with the running offset inside the
scratch file (new_offset starts at 0).  On a failed read the loop stops:
entries already visited keep their rewritten offsets, the rest are
untouched, and the error is returned.  Results: (keydir after the loop,
bytes the loop appended to the scratch file, loop outcome). -/
def compactLoop (oldFile : List Char) :
    List (String × Nat) → Nat → List (String × Nat) × List Char × Res Unit
  | [], _ => ([], [], .ok ())
  | (k, off) :: rest, tmpLen =>
    match valueFromFile oldFile off with
    | .ok v =>
      match compactLoop oldFile rest (tmpLen + (encodeCommand (.set k v) ++ ['\n']).length) with
      | (rest', written, r) =>
        ((k, tmpLen) :: rest', (encodeCommand (.set k v) ++ ['\n']) ++ written, r)
    | .err e => ((k, off) :: rest, [], .err e)
    | .panicked m => ((k, off) :: rest, [], .panicked m)

/-- KiwiStoreInner::compact (lines 100-129).  The scratch file is opened
with create+append, so bytes of a leftover kvs.db..tmp are kept in front
of the new records while new_offset still counts from 0 (the code never
truncates).  After the loop, fs::rename moves the scratch file over the
canonical path; `renameOk` says whether that rename succeeds.  On any
failure the canonical file is untouched but the keydir keeps whatever
the loop did to it, and the scratch file remains on disk. -/
def compactOp (renameOk : Bool) (s : KiwiStoreInner) : Res Unit × KiwiStoreInner :=
  match compactLoop s.file s.store 0 with
  | (store', written, .ok _) =>
    if renameOk then
      (.ok (), ⟨s.tmp.getD [] ++ written, store', none⟩)
    else
      (.err .ioErr, ⟨s.file, store', some (s.tmp.getD [] ++ written)⟩)
  | (store', written, .err e) => (.err e, ⟨s.file, store', some (s.tmp.getD [] ++ written)⟩)
  | (store', written, .panicked m) => (.panicked m, ⟨s.file, store', some (s.tmp.getD [] ++ written)⟩)

/-- The tail of KiwiStoreInner::set after the compaction check (lines
73-76): the keydir is updated FIRST, with the offset captured at entry
to set, and only then is the encoded record appended; `writeOk` says
whether that append (write_all) succeeds.  On a failed append the keydir
keeps the new entry. -/
def setAfter (writeOk : Bool) (s : KiwiStoreInner) (key value : String) (offset : Nat) :
    Res Unit × KiwiStoreInner :=
  if writeOk then
    (.ok (), ⟨s.file ++ encodeCommand (.set key value) ++ ['\n'],
      mapInsert s.store key offset, s.tmp⟩)
  else
    (.err .ioErr, ⟨s.file, mapInsert s.store key offset, s.tmp⟩)

/-- KiwiStoreInner::set (lines 65-77): capture offset = end of log; if
it exceeds 4000 * 21 run compact (propagating its failure); then insert
key -> offset (the PRE-compaction offset) into the keydir and append the
encoded Set record. -/
def setOp (writeOk renameOk : Bool) (s : KiwiStoreInner) (key value : String) :
    Res Unit × KiwiStoreInner :=
  if s.file.length > 4000 * 21 then
    match compactOp renameOk s with
    | (.ok _, s1) => setAfter writeOk s1 key value s.file.length
    | (r, s1) => (r, s1)
  else
    setAfter writeOk s key value s.file.length

/-- KiwiStoreInner::remove (lines 88-98): a missing key is
Err(NoKey("Key not found")); otherwise the keydir entry is removed FIRST
and then the Remove record is appended (`writeOk` as in `setAfter`). -/
def removeOp (writeOk : Bool) (s : KiwiStoreInner) (key : String) :
    Res Unit × KiwiStoreInner :=
  match mapLookup s.store key with
  | some _ =>
    if writeOk then
      (.ok (), ⟨s.file ++ encodeCommand (.remove key) ++ ['\n'],
        mapErase s.store key, s.tmp⟩)
    else
      (.err .ioErr, ⟨s.file, mapErase s.store key, s.tmp⟩)
  | none => (.err (.noKey "Key not found"), s)

/-- The rehydration loop of KiwiStoreInner::open (lines 32-49): read a
line (read_line also returns a final line with no terminator), feed the
whole buffer to serde_json::from_str and PROPAGATE any decode error with
`?`, otherwise replay the record into the keydir and advance the offset
by the bytes read. -/
def openLoop (file : List Char) (off : Nat) (store : List (String × Nat)) :
    Res (List (String × Nat)) :=
  match file with
  | [] => .ok store
  | c :: rest =>
    match decodeCommand (takeLine (c :: rest)) with
    | none => .err .invalidData
    | some (.set k _) =>
      openLoop ((c :: rest).drop (takeLine (c :: rest)).length)
        (off + (takeLine (c :: rest)).length) (mapInsert store k off)
    | some (.remove k) =>
      openLoop ((c :: rest).drop (takeLine (c :: rest)).length)
        (off + (takeLine (c :: rest)).length) (mapErase store k)
termination_by file.length
decreasing_by
  all_goals
    simp only [List.length_drop]
    have h1 : 0 < (takeLine (c :: rest)).length := by
      unfold takeLine; split <;> simp
    simp only [List.length_cons] at *
    omega

/-- KiwiStoreInner::open (lines 21-62) on a directory whose kvs.db holds
`existing` (none when the file does not exist): rebuild the keydir by
replaying the log, then open the same path for append (which keeps the
bytes as they are; an undecodable line aborts open with the error). -/
def openOp (existing : Option (List Char)) : Res KiwiStoreInner :=
  match existing with
  | none => .ok ⟨[], [], none⟩
  | some content =>
    match openLoop content 0 [] with
    | .ok st => .ok ⟨content, st, none⟩
    | .err e => .err e
    | .panicked m => .panicked m

/-- One client operation for driving whole-history runs. -/
inductive Op where
  | set (k v : String)
  | remove (k : String)

/-- Run a sequence of operations with every append and rename
succeeding, keeping only the final state (a Remove of a missing key
returns NoKey and leaves the state unchanged). -/
def runOps : KiwiStoreInner → List Op → KiwiStoreInner
  | s, [] => s
  | s, Op.set k v :: rest => runOps (setOp true true s k v).2 rest
  | s, Op.remove k :: rest => runOps (removeOp true s k).2 rest

/-- The state KiwiStoreInner::open produces on an empty directory. -/
def emptyStore : KiwiStoreInner := ⟨[], [], none⟩

/-- One record of the post-compaction log: the Set re-encoding of a
keydir entry, using the value read back from the old log. -/
def compactEntry (oldFile : List Char) (e : String × Nat) : List Char :=
  match valueFromFile oldFile e.2 with
  | .ok v => encodeCommand (.set e.1 v) ++ ['\n']
  | .err _ => []
  | .panicked _ => []

/-- The sled Db handle of the adapter.  Modelled from the spec: sled
itself ships outside this repository ("the alternative third-party
embedded engine ... its internals are not part of this system"); per its
documented contract remove deletes the key and returns the previous
value, Ok(None) when the key was absent. -/
structure SledDb where
  tree : List (String × String)
deriving DecidableEq

/-- sled::Db::remove as the adapter sees it: previous value plus the
database without the key. -/
def sledDbRemove (db : SledDb) (k : String) : Option String × SledDb :=
  (mapLookup db.tree k, ⟨mapErase db.tree k⟩)

/-- SledStoreInner::remove (src/store/sled_store.rs lines 31-36): any
Ok from sled - including Ok(None) for a missing key - becomes Ok(());
only a sled-internal error is reported (`sledOk` models that). -/
def sledRemove (sledOk : Bool) (db : SledDb) (k : String) : Res Unit × SledDb :=
  if sledOk then (.ok (), (sledDbRemove db k).2)
  else (.err .sledErr, db)

/-- A 42000-character value: two Set records of it exceed the 84000-byte
compaction threshold while one does not. -/
def bigV : String := String.mk (List.replicate 42000 'a')

/-- The encoded log line of Set("k", bigV): 42017 bytes with newline. -/
def rec1Line : List Char := encodeCommand (.set "k" bigV) ++ ['\n']

/-- The encoded log line of Set("k2", "v2"): 20 bytes with newline. -/
def rec3Line : List Char := encodeCommand (.set "k2" "v2") ++ ['\n']

/-- Final state of the compaction-triggering history: Set("k", bigV),
Set("k", bigV), Set("k2", "v2") on an empty directory. -/
def c12state : KiwiStoreInner :=
  runOps emptyStore [Op.set "k" bigV, Op.set "k" bigV, Op.set "k2" "v2"]

/-- Encoded line of Set("a", "1"): 18 bytes with newline. -/
def recA1 : List Char := encodeCommand (.set "a" "1") ++ ['\n']

/-- Encoded line of Set("a", "2"): 18 bytes with newline. -/
def recA2 : List Char := encodeCommand (.set "a" "2") ++ ['\n']

/-- Encoded line of Remove("a"): 15 bytes with newline. -/
def recRemA : List Char := encodeCommand (.remove "a") ++ ['\n']

/-- A store holding exactly key a at offset 0. -/
def c3state : KiwiStoreInner := ⟨recA1, [("a", 0)], none⟩

/-- A store with one dead record: log [Set(a,1), Set(a,2)], keydir
a -> 18. -/
def c4state : KiwiStoreInner := ⟨recA1 ++ recA2, [("a", 18)], none⟩

/-- A log whose last line is the truncated prefix \x7b"Se of a record
(crash mid-append), after one complete Set("a","1") record. -/
def c5file : List Char := recA1 ++ ['\x7b', '\"', 'S', 'e']

/-- A log holding one Set record whose key is "other". -/
def c6file : List Char := encodeCommand (.set "other" "v") ++ ['\n']

/-- A keydir claiming key "k" lives at offset 0 of c6file, where the
record's key is actually "other". -/
def c6state : KiwiStoreInner := ⟨c6file, [("k", 0)], none⟩

/-- A store with dead records: log [Set(a,1), Remove(a), Set(a,2)],
keydir a -> 33. -/
def c8state : KiwiStoreInner := ⟨recA1 ++ recRemA ++ recA2, [("a", 33)], none⟩

theorem hexVal_hexDigit : ∀ n < 16, hexVal (hexDigit n) = some n := by decide

theorem hexDigit_ne_newline : ∀ n < 16, hexDigit n ≠ '\n' := by decide

theorem newline_not_mem_escapeChar (c : Char) : '\n' ∉ escapeChar c := by
  unfold escapeChar
  split_ifs with h1 h2 h3 h4 h5 h6 h7 h8
  · decide
  · decide
  · decide
  · decide
  · decide
  · decide
  · decide
  · intro hmem
    have ha : c.toNat / 16 < 16 := by omega
    have hb : c.toNat % 16 < 16 := by omega
    simp only [List.mem_cons, List.not_mem_nil, or_false] at hmem
    rcases hmem with h | h | h | h | h | h
    · exact absurd h (by decide)
    · exact absurd h (by decide)
    · exact absurd h (by decide)
    · exact absurd h (by decide)
    · exact hexDigit_ne_newline _ ha h.symm
    · exact hexDigit_ne_newline _ hb h.symm
  · intro hmem
    simp only [List.mem_cons, List.not_mem_nil, or_false] at hmem
    exact h5 hmem.symm

theorem newline_not_mem_escapeList (l : List Char) : '\n' ∉ escapeList l := by
  intro h
  unfold escapeList at h
  rw [List.mem_flatten] at h
  obtain ⟨x, hx, hmem⟩ := h
  rw [List.mem_map] at hx
  obtain ⟨c, _, rfl⟩ := hx
  exact newline_not_mem_escapeChar c hmem

theorem newline_not_mem_encode (c : Command) : '\n' ∉ encodeCommand c := by
  cases c with
  | set k v =>
    simp only [encodeCommand, List.mem_append, not_or]
    exact ⟨⟨⟨⟨by decide, newline_not_mem_escapeList _⟩, by decide⟩,
      newline_not_mem_escapeList _⟩, by decide⟩
  | remove k =>
    simp only [encodeCommand, List.mem_append, not_or]
    exact ⟨⟨by decide, newline_not_mem_escapeList _⟩, by decide⟩

theorem escapeChar_a : escapeChar 'a' = ['a'] := by decide

theorem escapeList_replicate_a (n : Nat) :
    escapeList (List.replicate n 'a') = List.replicate n 'a' := by
  induction n with
  | zero => rfl
  | succ m ih =>
    simp only [escapeList, List.replicate_succ, List.map_cons, List.flatten_cons] at *
    rw [escapeChar_a, ih]
    rfl

theorem parseStringBody_cons_escape (c : Char) (tail l' rest' : List Char)
    (h : parseStringBody tail = some (l', rest')) :
    parseStringBody (escapeChar c ++ tail) = some (c :: l', rest') := by
  unfold escapeChar
  split_ifs with h1 h2 h3 h4 h5 h6 h7 h8
  · subst h1
    simp only [List.cons_append, List.nil_append]
    rw [parseStringBody.eq_def]
    simp +decide only [unescapeChar, h, ite_true, ite_false]
  · subst h2
    simp only [List.cons_append, List.nil_append]
    rw [parseStringBody.eq_def]
    simp +decide only [unescapeChar, h, ite_true, ite_false]
  · subst h3
    simp only [List.cons_append, List.nil_append]
    rw [parseStringBody.eq_def]
    simp +decide only [unescapeChar, h, ite_true, ite_false]
  · subst h4
    simp only [List.cons_append, List.nil_append]
    rw [parseStringBody.eq_def]
    simp +decide only [unescapeChar, h, ite_true, ite_false]
  · subst h5
    simp only [List.cons_append, List.nil_append]
    rw [parseStringBody.eq_def]
    simp +decide only [unescapeChar, h, ite_true, ite_false]
  · subst h6
    simp only [List.cons_append, List.nil_append]
    rw [parseStringBody.eq_def]
    simp +decide only [unescapeChar, h, ite_true, ite_false]
  · subst h7
    simp only [List.cons_append, List.nil_append]
    rw [parseStringBody.eq_def]
    simp +decide only [unescapeChar, h, ite_true, ite_false]
  · have hdiv : c.toNat / 16 < 16 := by omega
    have hmod : c.toNat % 16 < 16 := by omega
    have h0 : hexVal '0' = some 0 := by decide
    have hn : (((0 : Nat) * 16 + 0) * 16 + c.toNat / 16) * 16 + c.toNat % 16 = c.toNat := by
      omega
    have hs : ¬(55296 ≤ c.toNat ∧ c.toNat < 57344) := by omega
    simp only [List.cons_append, List.nil_append]
    rw [parseStringBody.eq_def]
    simp +decide only [h0, hexVal_hexDigit _ hdiv, hexVal_hexDigit _ hmod, hn, hs,
      ite_true, ite_false, Char.ofNat_toNat, h]
  · simp only [List.cons_append, List.nil_append]
    rw [parseStringBody.eq_def]
    simp only [h1, h2, h8, ite_true, ite_false, h]

theorem parseStringBody_escape (l rest : List Char) :
    parseStringBody (escapeList l ++ '\"' :: rest) = some (l, rest) := by
  induction l with
  | nil =>
    simp only [escapeList, List.map_nil, List.flatten_nil, List.nil_append]
    rw [parseStringBody.eq_def]
    simp +decide only [ite_true]
  | cons c cs ih =>
    simp only [escapeList, List.map_cons, List.flatten_cons, List.append_assoc]
    exact parseStringBody_cons_escape c _ cs rest ih

theorem dropPrefix_self_append (p l : List Char) : dropPrefix p (p ++ l) = some l := by
  induction p with
  | nil => rfl
  | cons c cs ih => simp [dropPrefix, ih]

theorem skipWs_setPre (l : List Char) : skipWs (setPre ++ l) = setPre ++ l := by
  have hws : isJsonWs '\x7b' = false := by decide
  simp [setPre, skipWs, hws]

theorem skipWs_removePre (l : List Char) : skipWs (removePre ++ l) = removePre ++ l := by
  have hws : isJsonWs '\x7b' = false := by decide
  simp [removePre, skipWs, hws]

theorem dropPrefix_setPre_removePre (l : List Char) :
    dropPrefix setPre (removePre ++ l) = none := by
  simp [setPre, removePre, dropPrefix]

/-- Round trip of the record codec: anything serde_json::to_string wrote,
followed by trailing JSON whitespace only, parses back to the same
Command. -/
theorem decode_encode_ws (c : Command) (ws : List Char) (h : skipWs ws = []) :
    decodeCommand (encodeCommand c ++ ws) = some c := by
  cases c with
  | set k v =>
    have e1 : encodeCommand (Command.set k v) ++ ws =
        setPre ++ (escapeList k.data ++ '\"' ::
          (',' :: '\"' :: (escapeList v.data ++ '\"' :: (']' :: '\x7d' :: ws)))) := by
      simp [encodeCommand, pairMid, setSuf, List.append_assoc]
    rw [decodeCommand, e1, skipWs_setPre, dropPrefix_self_append]
    simp +decide only [parseStringBody_escape, dropPrefix, h, ite_true, ite_false,
      List.append_eq, List.nil_append, List.cons_append]
  | remove k =>
    have e1 : encodeCommand (Command.remove k) ++ ws =
        removePre ++ (escapeList k.data ++ '\"' :: ('\x7d' :: ws)) := by
      simp [encodeCommand, removeSuf, List.append_assoc]
    rw [decodeCommand, e1, skipWs_removePre, dropPrefix_setPre_removePre]
    simp +decide only [dropPrefix_self_append, parseStringBody_escape, dropPrefix, h,
      ite_true, ite_false, List.append_eq, List.nil_append, List.cons_append]

theorem decode_encode_nl (c : Command) :
    decodeCommand (encodeCommand c ++ ['\n']) = some c :=
  decode_encode_ws c ['\n'] (by decide)

theorem decode_encode_nil (c : Command) : decodeCommand (encodeCommand c) = some c := by
  have h := decode_encode_ws c [] rfl
  simpa using h

theorem takeLine_append_nl (xs ys : List Char) (h : '\n' ∉ xs) :
    takeLine (xs ++ '\n' :: ys) = xs ++ ['\n'] := by
  induction xs with
  | nil => simp [takeLine]
  | cons c cs ih =>
    simp only [List.mem_cons, not_or] at h
    have hc : ¬(c = '\n') := fun hh => h.1 hh.symm
    simp [takeLine, hc, ih h.2]

/-- Reading the log at the exact start of an encoded Set record yields
its value (value_from_file never looks at the record's key). -/
theorem valueFromFile_set (pre post : List Char) (k v : String) :
    valueFromFile (pre ++ (encodeCommand (.set k v) ++ ['\n']) ++ post) pre.length =
      .ok v := by
  unfold valueFromFile
  have e1 : pre ++ (encodeCommand (.set k v) ++ ['\n']) ++ post =
      pre ++ (encodeCommand (.set k v) ++ '\n' :: post) := by
    simp [List.append_assoc]
  rw [e1, List.drop_left, takeLine_append_nl _ _ (newline_not_mem_encode _),
    decode_encode_nl]

/-- Reading at or past end of file fails to decode. -/
theorem valueFromFile_past (file : List Char) (off : Nat) (h : file.length ≤ off) :
    valueFromFile file off = .err .invalidData := by
  unfold valueFromFile
  rw [List.drop_eq_nil_of_le h]
  rfl

theorem mapInsert_head {b : Type} (k : String) (v w : b) (rest : List (String × b)) :
    mapInsert ((k, v) :: rest) k w = (k, w) :: rest := by
  simp [mapInsert]

theorem mapInsert_ne_head {b : Type} (k k' : String) (v w : b) (rest : List (String × b))
    (h : ¬(k = k')) : mapInsert ((k, v) :: rest) k' w = (k, v) :: mapInsert rest k' w := by
  simp [mapInsert, h]

theorem mapLookup_head {b : Type} (k : String) (v : b) (rest : List (String × b)) :
    mapLookup ((k, v) :: rest) k = some v := by
  simp [mapLookup]

theorem mapLookup_ne_head {b : Type} (k k' : String) (v : b) (rest : List (String × b))
    (h : ¬(k = k')) : mapLookup ((k, v) :: rest) k' = mapLookup rest k' := by
  simp [mapLookup, h]

theorem getOp_found_err (s : KiwiStoreInner) (k : String) (off : Nat) (e : Error)
    (h1 : mapLookup s.store k = some off) (h2 : valueFromFile s.file off = .err e) :
    getOp s k = .err e := by
  unfold getOp
  rw [h1]
  simp only []
  rw [h2]

theorem getOp_found_ok (s : KiwiStoreInner) (k : String) (off : Nat) (v : String)
    (h1 : mapLookup s.store k = some off) (h2 : valueFromFile s.file off = .ok v) :
    getOp s k = .ok (some v) := by
  unfold getOp
  rw [h1]
  simp only []
  rw [h2]

theorem getOp_found_panic (s : KiwiStoreInner) (k : String) (off : Nat) (m : String)
    (h1 : mapLookup s.store k = some off) (h2 : valueFromFile s.file off = .panicked m) :
    getOp s k = .panicked m := by
  unfold getOp
  rw [h1]
  simp only []
  rw [h2]

theorem getOp_none (s : KiwiStoreInner) (k : String)
    (h1 : mapLookup s.store k = none) : getOp s k = .ok none := by
  unfold getOp
  rw [h1]

theorem escBig : escapeList bigV.data = List.replicate 42000 'a' := by
  rw [show bigV.data = List.replicate 42000 'a' from rfl]
  exact escapeList_replicate_a 42000

theorem escBig_length : (escapeList bigV.data).length = 42000 := by
  rw [escBig, List.length_replicate]

theorem encodeCommand_set_length (k v : String) :
    (encodeCommand (Command.set k v)).length =
      15 + (escapeList k.data).length + (escapeList v.data).length := by
  simp only [encodeCommand, List.length_append, setPre, pairMid, setSuf,
    List.length_cons, List.length_nil]
  omega

theorem rec1Line_length : rec1Line.length = 42017 := by
  have h1 : (escapeList "k".data).length = 1 := by decide
  rw [rec1Line, List.length_append, encodeCommand_set_length, h1, escBig_length]
  rfl

theorem rec3Line_length : rec3Line.length = 20 := by decide

/-- One successful Set below the compaction threshold: keydir gets the
pre-append offset, the record is appended. -/
theorem set_below_threshold (file : List Char) (store : List (String × Nat))
    (tmp : Option (List Char)) (k v : String) (h : ¬(file.length > 4000 * 21)) :
    setOp true true ⟨file, store, tmp⟩ k v =
      (.ok (), ⟨file ++ encodeCommand (.set k v) ++ ['\n'],
        mapInsert store k file.length, tmp⟩) := by
  unfold setOp
  simp only []
  rw [if_neg h]
  rfl

theorem compactLoop_single (old : List Char) (k : String) (off : Nat) (v : String)
    (tmpLen : Nat) (hv : valueFromFile old off = .ok v) :
    compactLoop old [(k, off)] tmpLen =
      ([(k, tmpLen)], (encodeCommand (.set k v) ++ ['\n']) ++ [], .ok ()) := by
  rw [compactLoop.eq_def]
  simp only []
  rw [hv]
  rfl

theorem compactOp_ok (file : List Char) (store : List (String × Nat))
    (store' : List (String × Nat)) (written : List Char)
    (hloop : compactLoop file store 0 = (store', written, .ok ())) :
    compactOp true ⟨file, store, none⟩ = (.ok (), ⟨written, store', none⟩) := by
  unfold compactOp
  simp only []
  rw [hloop]
  rfl

/-- One successful Set above the compaction threshold: compaction runs,
but the keydir entry then inserted carries the PRE-compaction offset
captured at entry to set (the bug behind C1/C2). -/
theorem set_above_threshold (file : List Char) (store : List (String × Nat))
    (s1 : KiwiStoreInner) (k v : String) (h : file.length > 4000 * 21)
    (hcomp : compactOp true ⟨file, store, none⟩ = (.ok (), s1)) :
    setOp true true ⟨file, store, none⟩ k v =
      (.ok (), ⟨s1.file ++ encodeCommand (.set k v) ++ ['\n'],
        mapInsert s1.store k file.length, s1.tmp⟩) := by
  unfold setOp
  simp only []
  rw [if_pos h, hcomp]
  rfl

theorem hfold1 : encodeCommand (Command.set "k" bigV) ++ ['\n'] = rec1Line := rfl

theorem c12_vff : valueFromFile (rec1Line ++ rec1Line) 42017 = .ok bigV := by
  have h := valueFromFile_set rec1Line [] "k" bigV
  rw [List.append_nil, hfold1, rec1Line_length] at h
  exact h

theorem c12_set1 : (setOp true true emptyStore "k" bigV).2 =
    ⟨rec1Line, [("k", 0)], none⟩ := by
  rw [show emptyStore = (⟨[], [], none⟩ : KiwiStoreInner) from rfl,
    set_below_threshold [] [] none "k" bigV (by norm_num)]
  rfl

theorem c12_set2 : (setOp true true ⟨rec1Line, [("k", 0)], none⟩ "k" bigV).2 =
    ⟨rec1Line ++ rec1Line, [("k", 42017)], none⟩ := by
  rw [set_below_threshold rec1Line [("k", 0)] none "k" bigV
    (by rw [rec1Line_length]; norm_num)]
  simp only [List.append_assoc, hfold1, rec1Line_length, mapInsert_head]

theorem c12_compact : compactOp true ⟨rec1Line ++ rec1Line, [("k", 42017)], none⟩ =
    (.ok (), ⟨rec1Line, [("k", 0)], none⟩) := by
  rw [compactOp_ok (rec1Line ++ rec1Line) [("k", 42017)] [("k", 0)] rec1Line
    (by rw [compactLoop_single (rec1Line ++ rec1Line) "k" 42017 bigV 0 c12_vff,
      List.append_nil, hfold1])]

theorem c12_set3 :
    (setOp true true ⟨rec1Line ++ rec1Line, [("k", 42017)], none⟩ "k2" "v2").2 =
      ⟨rec1Line ++ rec3Line, [("k", 0), ("k2", 84034)], none⟩ := by
  have hlen2 : (rec1Line ++ rec1Line).length = 84034 := by
    rw [List.length_append, rec1Line_length]
  rw [set_above_threshold (rec1Line ++ rec1Line) [("k", 42017)]
    ⟨rec1Line, [("k", 0)], none⟩ "k2" "v2" (by rw [hlen2]; norm_num) c12_compact]
  simp only [List.append_assoc, hlen2]
  rw [show encodeCommand (Command.set "k2" "v2") ++ ['\n'] = rec3Line from rfl,
    mapInsert_ne_head _ _ _ _ _ (by decide)]
  rfl

/-- The compaction-triggering history ends with the keydir mapping k2 to
the stale pre-compaction offset 84034 while the log is only 42037 bytes
(k at 0, k2's record at 42017). -/
theorem c12state_eq :
    c12state = ⟨rec1Line ++ rec3Line, [("k", 0), ("k2", 84034)], none⟩ := by
  unfold c12state
  rw [runOps.eq_2, c12_set1, runOps.eq_2, c12_set2, runOps.eq_2, c12_set3, runOps.eq_1]

theorem c12file_length : (rec1Line ++ rec3Line).length = 42037 := by
  rw [List.length_append, rec1Line_length, rec3Line_length]

/-- C1: the claim says that after any finite Set/Remove history on an
empty directory, Get(k) returns the value of the last surviving Set(k).
The code violates it once a Set triggers compaction: after the history
Set("k", bigV), Set("k", bigV), Set("k2", "v2") (the third Set compacts,
then records the stale pre-compaction offset 84034 for k2), Get("k2")
reads past end of file and returns Err(InvalidData) instead of
Some("v2"). -/
theorem spec2_C1 : getOp c12state "k2" = .err .invalidData := by
  rw [c12state_eq]
  refine getOp_found_err _ _ 84034 _ ?_ ?_
  · show mapLookup [("k", 0), ("k2", 84034)] "k2" = some 84034
    rw [mapLookup_ne_head _ _ _ _ (by decide), mapLookup_head]
  · show valueFromFile (rec1Line ++ rec3Line) 84034 = .err .invalidData
    refine valueFromFile_past _ _ ?_
    rw [c12file_length]
    norm_num

/-- C2: the claim says a compaction-triggering Set inserts the offset at
which the just-written record begins in the post-compaction log (the
post-compaction end-of-log offset, 42017 here).  The code instead
inserts the pre-compaction offset: after the c12 history the keydir maps
k2 to 84034, while the record of k2 actually begins at 42017 (the log is
42037 bytes long) and offset 84034 holds nothing. -/
theorem spec2_C2 :
    mapLookup c12state.store "k2" = some 84034 ∧
    c12state.file.length = 42037 ∧
    valueFromFile c12state.file 42017 = .ok "v2" ∧
    valueFromFile c12state.file 84034 = .err .invalidData := by
  rw [c12state_eq]
  refine ⟨?_, ?_, ?_, ?_⟩
  · show mapLookup [("k", 0), ("k2", 84034)] "k2" = some 84034
    rw [mapLookup_ne_head _ _ _ _ (by decide), mapLookup_head]
  · show (rec1Line ++ rec3Line).length = 42037
    exact c12file_length
  · show valueFromFile (rec1Line ++ rec3Line) 42017 = .ok "v2"
    have h := valueFromFile_set rec1Line [] "k2" "v2"
    rw [List.append_nil, rec1Line_length] at h
    exact h
  · show valueFromFile (rec1Line ++ rec3Line) 84034 = .err .invalidData
    exact valueFromFile_past _ _ (by rw [c12file_length]; norm_num)

/-- C3: the claim says a Set or Remove whose append fails leaves the
keydir unchanged.  The code updates the keydir BEFORE the append: a Set
on an empty store whose write fails leaves k -> 0 in the keydir (and no
record in the log), and a Remove of a present key whose write fails
erases the keydir entry while logging nothing. -/
theorem spec2_C3 :
    setOp false true emptyStore "k" "v" = (.err .ioErr, ⟨[], [("k", 0)], none⟩) ∧
    removeOp false c3state "a" = (.err .ioErr, ⟨recA1, [], none⟩) := by
  refine ⟨?_, ?_⟩ <;> decide

/-- C4: the claim says a Compact that fails before its rename completes
leaves the canonical log AND the keydir exactly as they were.  The code
rewrites keydir offsets in place during the copy loop, so when the
rename fails on c4state (keydir a -> 18 over log [Set(a,1), Set(a,2)])
the canonical log is indeed unchanged but the keydir now reads a -> 0
(an offset inside the abandoned temporary file, which remains on disk
holding the Set(a,2) record). -/
theorem spec2_C4 :
    compactOp false c4state =
      (.err .ioErr, ⟨recA1 ++ recA2, [("a", 0)], some recA2⟩) ∧
    (⟨recA1 ++ recA2, [("a", 0)], some recA2⟩ : KiwiStoreInner).file = c4state.file ∧
    ¬((⟨recA1 ++ recA2, [("a", 0)], some recA2⟩ : KiwiStoreInner).store = c4state.store) := by
  refine ⟨?_, ?_, ?_⟩ <;> decide

theorem openLoop_cons_err (c : Char) (rest : List Char) (off : Nat)
    (store : List (String × Nat)) (h : decodeCommand (takeLine (c :: rest)) = none) :
    openLoop (c :: rest) off store = .err .invalidData := by
  rw [openLoop.eq_def]
  simp only [h]

theorem openLoop_cons_set (c : Char) (rest : List Char) (off : Nat)
    (store : List (String × Nat)) (k v : String)
    (h : decodeCommand (takeLine (c :: rest)) = some (.set k v)) :
    openLoop (c :: rest) off store =
      openLoop ((c :: rest).drop (takeLine (c :: rest)).length)
        (off + (takeLine (c :: rest)).length) (mapInsert store k off) := by
  rw [openLoop.eq_def]
  simp only [h]

theorem c5file_lit : c5file = '\x7b' :: '\"' :: 'S' :: 'e' :: 't' :: '\"' :: ':' :: '[' ::
    '\"' :: 'a' :: '\"' :: ',' :: '\"' :: '1' :: '\"' :: ']' :: '\x7d' :: '\n' ::
    '\x7b' :: '\"' :: 'S' :: 'e' :: [] := by decide

/-- C5: the claim says open on a log whose last line is an unterminated
partial record succeeds and indexes the complete prefix, ignoring the
partial bytes.  The code feeds every line read - including the final
unterminated one - to serde_json::from_str and propagates the decode
error with `?`, so open on [Set(a,1) record, partial line \x7b"Se]
fails with InvalidData instead of succeeding. -/
theorem spec2_C5 : openOp (some c5file) = .err .invalidData := by
  have hstep : c5file.drop (takeLine c5file).length = ['\x7b', '\"', 'S', 'e'] := by decide
  have e1 : openLoop c5file 0 [] =
      openLoop (c5file.drop (takeLine c5file).length)
        (0 + (takeLine c5file).length) (mapInsert [] "a" 0) := by
    rw [c5file_lit]
    exact openLoop_cons_set _ _ _ _ "a" "1" (by decide)
  have e2 : openLoop (c5file.drop (takeLine c5file).length)
      (0 + (takeLine c5file).length) (mapInsert [] "a" 0) = .err .invalidData := by
    rw [hstep]
    exact openLoop_cons_err _ _ _ _ (by decide)
  unfold openOp
  simp only []
  rw [e1, e2]

/-- C6 counterexample: the claim says Get panics when the record at the
keydir offset is a Set for a DIFFERENT key.  On c6state (keydir k -> 0
over a log whose only record is Set("other","v")) Get("k") does not
panic: it silently returns Ok(Some "v"), the value stored under the
other key. -/
theorem spec2_C6_counterexample :
    getOp c6state "k" = .ok (some "v") ∧
    ¬(getOp c6state "k" = .panicked "wrong offset") := by
  refine ⟨?_, ?_⟩ <;> decide

/-- C6 amended: when the keydir lookup yields an offset, a Remove record
decoded there makes Get panic with "wrong offset", but a Set record is
returned without comparing its key - a Set for a different key is
silently returned rather than treated as fatal. -/
theorem spec2_C6 (s : KiwiStoreInner) (k : String) (off : Nat)
    (hl : mapLookup s.store k = some off) :
    (∀ k' v, decodeCommand (takeLine (s.file.drop off)) = some (Command.set k' v) →
      ¬(k' = k) → getOp s k = .ok (some v)) ∧
    (∀ k', decodeCommand (takeLine (s.file.drop off)) = some (Command.remove k') →
      getOp s k = .panicked "wrong offset") := by
  constructor
  · intro k' v hdec _
    refine getOp_found_ok s k off v hl ?_
    unfold valueFromFile
    rw [hdec]
  · intro k' hdec
    refine getOp_found_panic s k off _ hl ?_
    unfold valueFromFile
    rw [hdec]

theorem spec2_C6_witness :
    getOp c6state "k" = .ok (some "v") ∧
    getOp (⟨encodeCommand (Command.remove "a") ++ ['\n'], [("z", 0)], none⟩ :
      KiwiStoreInner) "z" = .panicked "wrong offset" := by
  have h1 := spec2_C6 c6state "k" 0 (by decide)
  have h2 := spec2_C6 ⟨encodeCommand (Command.remove "a") ++ ['\n'], [("z", 0)], none⟩
    "z" 0 (by decide)
  exact ⟨h1.1 "other" "v" (by decide) (by decide), h2.2 "a" (by decide)⟩

/-- C7 counterexample: the claim says BOTH engines return the NoKey
error on Remove of an absent key.  The sled adapter does not: removing
"missing" from a sled store that only holds "x" returns Ok(()), because
the adapter discards sled's Ok(None) answer. -/
theorem spec2_C7_counterexample :
    (sledRemove true ⟨[("x", "1")]⟩ "missing").1 = .ok () ∧
    ¬((sledRemove true ⟨[("x", "1")]⟩ "missing").1 = .err (.noKey "Key not found")) := by
  refine ⟨?_, ?_⟩ <;> decide

/-- C7 amended: the log-backed store's Remove returns NoKey("Key not
found") and leaves the state unchanged when the key is absent, and ok
when it is present; the sled adapter's Remove returns ok whether or not
the key was present (it never reports NoKey). -/
theorem spec2_C7 (s : KiwiStoreInner) (db : SledDb) (k : String) :
    (mapLookup s.store k = none →
      removeOp true s k = (.err (.noKey "Key not found"), s)) ∧
    (∀ off, mapLookup s.store k = some off → (removeOp true s k).1 = .ok ()) ∧
    (sledRemove true db k).1 = .ok () := by
  refine ⟨fun h => ?_, fun off h => ?_, rfl⟩
  · unfold removeOp
    rw [h]
  · unfold removeOp
    rw [h]
    rfl

theorem spec2_C7_witness :
    removeOp true c3state "b" = (.err (.noKey "Key not found"), c3state) ∧
    (removeOp true c3state "a").1 = .ok () ∧
    (sledRemove true ⟨[]⟩ "b").1 = .ok () := by
  have h1 := spec2_C7 c3state ⟨[]⟩ "b"
  have h2 := spec2_C7 c3state ⟨[]⟩ "a"
  exact ⟨h1.1 (by decide), h2.2.1 0 (by decide), h1.2.2⟩

/-- C10: the record codec round-trips every Command - including keys
and values holding newlines, quotes or backslashes - and the encoded
record never contains a newline, so each record occupies exactly one
newline-terminated line and even a value containing a newline survives
the log verbatim.  Parsing is stated both for the bare encoding and for
the newline-terminated line as written to the log. -/
theorem spec2_C10 (c : Command) :
    decodeCommand (encodeCommand c ++ ['\n']) = some c ∧
    decodeCommand (encodeCommand c) = some c ∧
    ¬('\n' ∈ encodeCommand c) :=
  ⟨decode_encode_nl c, decode_encode_nil c, newline_not_mem_encode c⟩

/-- Invariant of the compaction copy loop when it succeeds: the keydir
keeps its keys in order, the scratch file is exactly one fresh Set
record per keydir entry (in keydir order, each carrying the value read
back from the old log), and every entry's new offset addresses its own
record inside the scratch bytes. -/
theorem compactLoop_ok_spec (oldFile : List Char) (entries : List (String × Nat))
    (tmpLen : Nat) (entries' : List (String × Nat)) (written : List Char)
    (h : compactLoop oldFile entries tmpLen = (entries', written, .ok ())) :
    entries'.map Prod.fst = entries.map Prod.fst ∧
    written = (entries.map (compactEntry oldFile)).flatten ∧
    (∀ k, (mapLookup entries k = none → mapLookup entries' k = none) ∧
      (∀ off, mapLookup entries k = some off →
        ∃ noff v, mapLookup entries' k = some noff ∧
          valueFromFile oldFile off = .ok v ∧
          ∀ pre post : List Char, pre.length = tmpLen →
            valueFromFile (pre ++ written ++ post) noff = .ok v)) := by
  induction entries generalizing tmpLen entries' written with
  | nil =>
    rw [compactLoop.eq_def] at h
    simp only [] at h
    injection h with h1 h2
    injection h2 with h2a h2b
    subst h1
    subst h2a
    refine ⟨rfl, rfl, fun k => ⟨fun _ => rfl, fun off hoff => ?_⟩⟩
    rw [show mapLookup ([] : List (String × Nat)) k = none from rfl] at hoff
    exact Option.noConfusion hoff
  | cons e rest ih =>
    obtain ⟨k0, off0⟩ := e
    rw [compactLoop.eq_def] at h
    simp only [] at h
    cases hv : valueFromFile oldFile off0 with
    | err e0 =>
      rw [hv] at h
      simp only [] at h
      injection h with h1 h2
      injection h2 with h2a h2b
      exact Res.noConfusion h2b
    | panicked m0 =>
      rw [hv] at h
      simp only [] at h
      injection h with h1 h2
      injection h2 with h2a h2b
      exact Res.noConfusion h2b
    | ok v0 =>
      rw [hv] at h
      simp only [] at h
      injection h with h1 h2
      injection h2 with h2a h2b
      have hR : compactLoop oldFile rest
          (tmpLen + (encodeCommand (Command.set k0 v0) ++ ['\n']).length) =
          ((compactLoop oldFile rest
            (tmpLen + (encodeCommand (Command.set k0 v0) ++ ['\n']).length)).1,
           (compactLoop oldFile rest
            (tmpLen + (encodeCommand (Command.set k0 v0) ++ ['\n']).length)).2.1,
           .ok ()) := by
        rw [← h2b]
      obtain ⟨ihk, ihw, ihl⟩ := ih _ _ _ hR
      subst h1
      subst h2a
      refine ⟨?_, ?_, ?_⟩
      · simp only [List.map_cons, ihk]
      · simp only [List.map_cons, List.flatten_cons]
        rw [← ihw]
        have hce : compactEntry oldFile (k0, off0) =
            encodeCommand (Command.set k0 v0) ++ ['\n'] := by
          unfold compactEntry
          rw [show (k0, off0).2 = off0 from rfl, hv]
        rw [hce]
      · intro k
        by_cases hk : k0 = k
        · subst hk
          constructor
          · intro hnone
            rw [show mapLookup ((k0, off0) :: rest) k0 = some off0 from
              mapLookup_head k0 off0 rest] at hnone
            exact Option.noConfusion hnone
          · intro off hoff
            rw [mapLookup_head] at hoff
            injection hoff with hoff1
            subst hoff1
            refine ⟨tmpLen, v0, mapLookup_head _ _ _, hv, ?_⟩
            intro pre post hpre
            subst hpre
            have hassoc : pre ++ ((encodeCommand (Command.set k0 v0) ++ ['\n']) ++
                (compactLoop oldFile rest
                  (pre.length + (encodeCommand (Command.set k0 v0) ++ ['\n']).length)).2.1)
                ++ post =
                pre ++ (encodeCommand (Command.set k0 v0) ++ ['\n']) ++
                ((compactLoop oldFile rest
                  (pre.length + (encodeCommand (Command.set k0 v0) ++ ['\n']).length)).2.1
                  ++ post) := by
              simp [List.append_assoc]
            rw [hassoc]
            exact valueFromFile_set pre _ k0 v0
        · constructor
          · intro hnone
            rw [mapLookup_ne_head _ _ _ _ hk] at hnone
            rw [mapLookup_ne_head _ _ _ _ hk]
            exact ((ihl k).1) hnone
          · intro off hoff
            rw [mapLookup_ne_head _ _ _ _ hk] at hoff
            obtain ⟨noff, v, hlk, hvf, hread⟩ := (ihl k).2 off hoff
            refine ⟨noff, v, ?_, hvf, ?_⟩
            · rw [mapLookup_ne_head _ _ _ _ hk]
              exact hlk
            · intro pre post hpre
              have hlen : (pre ++ (encodeCommand (Command.set k0 v0) ++ ['\n'])).length =
                  tmpLen + (encodeCommand (Command.set k0 v0) ++ ['\n']).length := by
                rw [List.length_append, hpre]
              have := hread (pre ++ (encodeCommand (Command.set k0 v0) ++ ['\n'])) post hlen
              rw [show pre ++ (encodeCommand (Command.set k0 v0) ++ ['\n']) ++
                  (compactLoop oldFile rest
                    (tmpLen + (encodeCommand (Command.set k0 v0) ++ ['\n']).length)).2.1
                  ++ post =
                  pre ++ ((encodeCommand (Command.set k0 v0) ++ ['\n']) ++
                  (compactLoop oldFile rest
                    (tmpLen + (encodeCommand (Command.set k0 v0) ++ ['\n']).length)).2.1)
                  ++ post from by simp [List.append_assoc]] at this
              exact this

/-- C8: after every successful Compact (on a state with no leftover
scratch file, as every state reachable without a previously failed
compaction has), every key resolves via Get to exactly the value it had
before, the keydir keys are preserved, and the new canonical log is
precisely the concatenation of one Set record per keydir entry - hence
one Set record per live key (keydir keys are unique in a HashMap), no
Remove records and no dead records. -/
theorem spec2_C8 (s s' : KiwiStoreInner) (ht : s.tmp = none)
    (h : compactOp true s = (.ok (), s')) :
    (∀ k, getOp s' k = getOp s k) ∧
    s'.store.map Prod.fst = s.store.map Prod.fst ∧
    s'.file = (s.store.map (compactEntry s.file)).flatten ∧
    s'.tmp = none := by
  unfold compactOp at h
  rcases hr : compactLoop s.file s.store 0 with ⟨store', written, r⟩
  rw [hr, ht] at h
  cases r with
  | err e0 =>
    simp only [] at h
    injection h with h1 h2
    exact Res.noConfusion h1
  | panicked m0 =>
    simp only [] at h
    injection h with h1 h2
    exact Res.noConfusion h1
  | ok u =>
    simp only [ite_true, eq_self_iff_true, Option.getD_none, List.nil_append] at h
    injection h with h1 h2
    obtain ⟨hkeys, hw, hl⟩ := compactLoop_ok_spec s.file s.store 0 store' written hr
    subst h2
    refine ⟨?_, hkeys, hw, rfl⟩
    intro k
    cases hk : mapLookup s.store k with
    | none =>
      have h2n : mapLookup store' k = none := (hl k).1 hk
      rw [getOp_none s k hk]
      exact getOp_none _ k h2n
    | some off =>
      obtain ⟨noff, v, hlk, hvf, hread⟩ := (hl k).2 off hk
      rw [getOp_found_ok s k off v hk hvf]
      refine getOp_found_ok _ k noff v hlk ?_
      have := hread [] [] rfl
      rw [List.nil_append, List.append_nil] at this
      exact this

theorem spec2_C8_witness :
    (getOp (⟨recA2, [("a", 0)], none⟩ : KiwiStoreInner) "a" = getOp c8state "a") ∧
    (⟨recA2, [("a", 0)], none⟩ : KiwiStoreInner).file =
      (c8state.store.map (compactEntry c8state.file)).flatten := by
  have h := spec2_C8 c8state ⟨recA2, [("a", 0)], none⟩ rfl (by decide)
  exact ⟨h.1 "a", h.2.2.1⟩

end Kiwi

